import Mathlib

/-!
Shallow embedding of the trade5 technical-signal core in Lean 4.

Python floats are modelled by `ℚ`.  `round(x, 2)` (banker's rounding at two
decimals) is modelled by `pyRound2`, `int(x)` (truncation toward zero) by
`pyTrunc`.  A Python function that can raise is modelled with `Option`
(`none` = the call raises).  NaN values flowing through pandas series are
modelled by `Option ℚ` entries (`none` = NaN); the two places where numpy
would produce an infinity instead of NaN are folded into the definitions and
flagged with a comment at the definition site.
-/

namespace Trade5

/-- Round-half-to-even of a rational to an integer, as Python `round` does. -/
def rhe (q : ℚ) : ℤ :=
  let f : ℤ := ⌊q⌋
  let r : ℚ := q - f
  if r < 1/2 then f
  else if 1/2 < r then f + 1
  else if f % 2 = 0 then f else f + 1

/-- Python `round(x, 2)` on our rational model of floats. -/
def pyRound2 (q : ℚ) : ℚ := (rhe (q * 100) : ℚ) / 100

/-- Python `int(x)`: truncation toward zero. -/
def pyTrunc (q : ℚ) : ℤ := if 0 ≤ q then ⌊q⌋ else ⌈q⌉

theorem rhe_ge_floor (q : ℚ) : ⌊q⌋ ≤ rhe q := by
  unfold rhe
  dsimp only
  split
  · exact le_refl _
  · split
    · exact le_of_lt (by exact_mod_cast lt_add_one _)
    · split
      · exact le_refl _
      · exact le_of_lt (by exact_mod_cast lt_add_one _)

/-- `pyRound2` never rounds a value that is at least `0.01` below `0.01`. -/
theorem pyRound2_ge_min {x : ℚ} (hx : 1/100 ≤ x) : 1/100 ≤ pyRound2 x := by
  unfold pyRound2
  have h1 : (1 : ℚ) ≤ x * 100 := by linarith
  have h2 : (1 : ℤ) ≤ ⌊x * 100⌋ := Int.le_floor.mpr (by exact_mod_cast h1)
  have h3 : (1 : ℤ) ≤ rhe (x * 100) := le_trans h2 (rhe_ge_floor _)
  have h4 : (1 : ℚ) ≤ (rhe (x * 100) : ℚ) := by exact_mod_cast h3
  linarith [(div_le_div_right (show (0:ℚ) < 100 by norm_num)).mpr h4]

/-! ## Bars

One OHLCV observation.  `openPrice` stands for the source's `open` column
(`open` is a Lean keyword). -/

structure Bar where
  openPrice : ℚ
  high : ℚ
  low : ℚ
  close : ℚ
  volume : ℚ
deriving Repr, DecidableEq

/-! ## Price Validator (`backend/price_validator.py`) -/

/-- A Python value handed to `validate_price`: `pynone` is `None`, `nan` a
float NaN, `num q` a finite float, and `obj` any object that `float()`
cannot convert (e.g. a non-numeric string). -/
inductive PyVal where
  | pynone
  | nan
  | num (q : ℚ)
  | obj
deriving Repr, DecidableEq

/-- `PriceValidator.validate_price` on an arbitrary Python value.
`pd.isna` is true on `None` and NaN; `float()` raises (`none`) on a
non-convertible object. -/
def validate_price (price : PyVal) (min_price : ℚ) : Option ℚ :=
  match price with
  | .pynone => some min_price
  | .nan => some min_price
  | .num q => some (max min_price q)
  | .obj => none

/-- `PriceValidator.validate_price` restricted to finite numeric inputs,
the only case exercised on the stop-loss/take-profit paths. -/
def validate_price_num (price : ℚ) (min_price : ℚ) : ℚ := max min_price price

/-- `PriceValidator.validate_price` applied to a possibly-NaN series entry
(the Donchian channel path): `pd.isna` catches the NaN and returns the
minimum price. -/
def validate_price_nan (price : Option ℚ) (min_price : ℚ) : ℚ :=
  match price with
  | none => min_price
  | some q => max min_price q

/-- `PriceValidator.validate_stop_loss`. -/
def validate_stop_loss (stop_loss current_price atr : ℚ) : ℚ :=
  let sl1 := validate_price_num stop_loss (1/100)
  let sl2 := if sl1 ≥ current_price * (99/100) then current_price - atr * (3/2) else sl1
  validate_price_num sl2 (1/100)

/-- `PriceValidator.validate_take_profit`. -/
def validate_take_profit (take_profit current_price atr : ℚ) : ℚ :=
  let tp1 := validate_price_num take_profit (1/100)
  if tp1 ≤ current_price * (102/100) then current_price + atr * 2 else tp1

/-- The structured alert returned by `detect_massive_drop`; message fields
are represented by their data content (`warning` and `action` are fixed
strings built from the numbers below). -/
structure MassiveDrop where
  drop_percent : ℚ
  previous_close : ℚ
  current_close : ℚ
  volume_spike : Bool
  volume_ratio : ℚ
deriving Repr, DecidableEq

/-- `PriceValidator.detect_massive_drop`.  Compares the last two closes of
the bar series; `threshold` is in percent.  For series of at least 20 bars
the volume ratio divides by the mean of the last 20 volumes (the sources'
`rolling(20).mean().iloc[-1]`); division by a zero mean, which in numpy
would produce an infinity, is not exercised by any claim. -/
def detect_massive_drop (bars : List Bar) (threshold : ℚ) : Option MassiveDrop :=
  if bars.length < 2 then none
  else
    let closes := bars.map Bar.close
    let last_close := (closes.drop (closes.length - 2)).headD 0
    let current_close := closes.getLastD 0
    let drop_percent := (current_close - last_close) / last_close * 100
    if drop_percent < -threshold then
      let vols := bars.map Bar.volume
      let volume_ratio :=
        if bars.length ≥ 20 then
          vols.getLastD 0 / ((vols.drop (vols.length - 20)).sum / 20)
        else 1
      some {
        drop_percent := pyRound2 drop_percent
        previous_close := pyRound2 last_close
        current_close := pyRound2 current_close
        volume_spike := volume_ratio > 3/2
        volume_ratio := pyRound2 volume_ratio }
    else none

/-- Result of `cap_risk_reward_ratio`. -/
structure CapRR where
  rr_ratio : ℚ
  actual_rr : ℚ
  capped : Bool
deriving Repr, DecidableEq

/-- `PriceValidator.cap_risk_reward_ratio`. -/
def cap_risk_reward_ratio (rr max_rr : ℚ) : CapRR :=
  if rr > max_rr then
    { rr_ratio := max_rr, actual_rr := pyRound2 rr, capped := true }
  else
    { rr_ratio := pyRound2 rr, actual_rr := pyRound2 rr, capped := false }

/-! ## Risk Calculator (`backend/risk_calculator.py`) -/

/-- The profile dictionary returned by `calculate_risk_reward` (numeric and
boolean fields; the Romanian message fields are omitted). -/
structure RiskProfile where
  entry_price : ℚ
  stop_loss : ℚ
  take_profit : ℚ
  stop_loss_percent : ℚ
  risk_reward_ratio : ℚ
  actual_rr_ratio : ℚ
  rr_capped : Bool
  position_size_suggestion : ℚ
  trailing_stop : ℚ
  atr_value : ℚ
  favorable : Bool
deriving Repr, DecidableEq

/-- The stop-loss value `calculate_risk_reward` works with before display
rounding: ATR/support based candidate, validated, then capped at 10 %. -/
def riskStopLoss (P a s : ℚ) : ℚ :=
  let sl0 := max (P - a * (3/2)) (s - a * (1/2))
  let sl1 := validate_stop_loss sl0 P a
  let slp := (P - sl1) / P * 100
  if slp > 10 then P * (9/10) else sl1

/-- The stop-loss percentage after the 10 % cap (the position-sizing
divisor). -/
def riskSLPercent (P a s : ℚ) : ℚ :=
  let sl1 := validate_stop_loss (max (P - a * (3/2)) (s - a * (1/2))) P a
  let slp := (P - sl1) / P * 100
  if slp > 10 then 10 else slp

/-- The take-profit value `calculate_risk_reward` works with before display
rounding. -/
def riskTakeProfit (P a r : ℚ) : ℚ :=
  let tp0 := if P ≥ r * (98/100) then P + a * 3 else r - r * (2/1000)
  validate_take_profit tp0 P a

/-- `RiskCalculator.calculate_risk_reward` on an indicator snapshot with
current price `P`, ATR `a`, pivot support `s` and resistance `r`.
`none` models the exception path: `sl_percent` is computed as
`(P - SL)/P * 100` (ZeroDivisionError when `P = 0`) and the position size
divides by `sl_percent` (ZeroDivisionError when it is zero); the wrapping
`except` re-raises. -/
def calculate_risk_reward (P a s r : ℚ) : Option RiskProfile :=
  if P = 0 then none
  else
    let SL := riskStopLoss P a s
    let slp := riskSLPercent P a s
    let TP := riskTakeProfit P a r
    let risk0 := P - SL
    let risk := if risk0 ≤ 0 then a * (3/2) else risk0
    let rr := if risk > 0 then (TP - P) / risk else 0
    let cap := cap_risk_reward_ratio rr 10
    if slp = 0 then none
    else
      let position_size := 1 / slp * 100
      let trailing := validate_price_num (P - a * 2) (1/100)
      some {
        entry_price := pyRound2 P
        stop_loss := pyRound2 SL
        take_profit := pyRound2 TP
        stop_loss_percent := pyRound2 slp
        risk_reward_ratio := cap.rr_ratio
        actual_rr_ratio := cap.actual_rr
        rr_capped := cap.capped
        position_size_suggestion := pyRound2 (min position_size 100)
        trailing_stop := pyRound2 trailing
        atr_value := pyRound2 a
        favorable := rr ≥ 3/2 }

/-! ## Protection rule modules
(`overbought_protector.py`, `high_risk_optimizer.py`) -/

inductive Signal where
  | BUY | SELL | HOLD | WAIT | NEUTRAL | LIQUIDATE
deriving Repr, DecidableEq

/-- Qualitative zone labels stored in the indicator snapshot
(`supracumpărat` / `supravândut` / `neutru`). -/
inductive Zone where
  | overbought | oversold | neutral
deriving Repr, DecidableEq

inductive Regime where
  | TRENDING | RANGING | NEUTRAL
deriving Repr, DecidableEq

inductive TrendDir where
  | BULLISH | BEARISH
deriving Repr, DecidableEq

inductive MacdCross where
  | bullish | bearish
deriving Repr, DecidableEq

/-- Tags for the human-readable reason/warning strings produced by
`generate_signal` and the protection modules (each constructor stands for
one fixed message template of the source). -/
inductive Msg where
  | dailyDropBlock | dailyDropWarn
  | dteCriticalBlock | dteCriticalWarn | dteHighWarn
  | dteLegacyBlock | dteLegacyWarn
  | dteMidBlock | dteMidWarn
  | massiveDropWarn | massiveDropAction
  | sellTriggerMsg | sellTriggerAction
  | entryBlockMsg
  | volumeDivergenceMsg
  | financialBlockMsg | financialBlockAction
  | earningsMsg | earningsAction
  | rrSubunitar | rrReason
  | volumeLow | volumeReason
  | rangingWarn | trendBullish | trendBearish
  | rsiOversold | rsiOverboughtWarn
  | stochExtremeWarn | stochOversold
  | macdBullish
  | vixWarn | resistanceWarn | supportWarn
deriving Repr, DecidableEq

/-- `OverboughtProtector.check_sell_trigger`: RSI > 70 and Stoch-RSI K > 90
and volume ratio < 0.5 force a SELL with confidence 85. -/
def check_sell_trigger (rsi stoch_rsi_k volume_ratio : ℚ) : Option Unit :=
  if rsi > 70 ∧ stoch_rsi_k > 90 ∧ volume_ratio < 1/2 then some () else none

/-- `OverboughtProtector.check_entry_block`: R/R < 1.0 blocks new entries. -/
def check_entry_block (risk_reward_ratio : ℚ) : Option Unit :=
  if risk_reward_ratio < 1 then some () else none

/-- `HighRiskOptimizer.check_volume_divergence`: volume ratio < 0.8 while
the price change is positive yields a warning carrying a 30-point
confidence penalty. -/
def check_volume_divergence (volume_ratio price_change_percent : ℚ) : Option Unit :=
  if volume_ratio < 8/10 ∧ price_change_percent > 0 then some () else none

/-- Fundamentals record consumed by the engine; `none` fields are absent
(`dict.get` returns `None`). -/
structure Fundamentals where
  debt_to_equity : Option ℚ
  free_cash_flow : Option ℚ
deriving Repr, DecidableEq

/-- Python truthiness of an optional numeric field: `None` and `0` are
falsy.  `fundamentals.get('debt_to_equity')` guards in the source are
truthiness tests, so a stored `0` behaves like an absent value. -/
def truthyNum (o : Option ℚ) : Option ℚ :=
  match o with
  | none => none
  | some q => if q = 0 then none else some q

/-- The debt/equity value seen by `generate_signal`, after the truthiness
guard on `fundamentals` and its `debt_to_equity` entry. -/
def dteOf (fundamentals : Option Fundamentals) : Option ℚ :=
  match fundamentals with
  | none => none
  | some f => truthyNum f.debt_to_equity

/-- `x if x else 0`: the coercion applied to fundamentals fields inside
`check_financial_health_block`. -/
def orZero (o : Option ℚ) : ℚ :=
  match o with
  | none => 0
  | some q => q

/-- `HighRiskOptimizer.check_financial_health_block`: free cash flow < 0
and debt/equity > 200 % force NEUTRAL, or LIQUIDATE below −$1B FCF. -/
def check_financial_health_block (fundamentals : Option Fundamentals) : Option Signal :=
  match fundamentals with
  | none => none
  | some f =>
    let fcf := orZero f.free_cash_flow
    let dte := orZero f.debt_to_equity
    if fcf < 0 ∧ dte > 200 then
      some (if fcf < -1000000000 then Signal.LIQUIDATE else Signal.NEUTRAL)
    else none

/-- `HighRiskOptimizer.check_earnings_proximity`: at most 7 days to
earnings forces a WAIT with confidence 20 (the returned alert always has
`forced_signal_override = True`). -/
def check_earnings_proximity (days_until_earnings : Option ℤ) : Option Unit :=
  match days_until_earnings with
  | none => none
  | some d => if d ≤ 7 then some () else none

/-! ## Signal Decision Engine (`TechnicalAnalyzer.generate_signal`) -/

/-- The fields of the indicator snapshot that `generate_signal` reads. -/
structure Indicators where
  rsi_value : ℚ
  rsi_signal : Zone
  stoch_k : ℚ
  stoch_signal : Zone
  adx_regime : Regime
  trend_direction : TrendDir
  macd_cross : MacdCross
  volume_ratio : ℚ
  price_current : ℚ
  pivot_support : ℚ
  pivot_resistance : ℚ
deriving Repr, DecidableEq

structure MarketContext where
  vix_high_volatility : Bool
deriving Repr, DecidableEq

structure RiskData where
  risk_reward_ratio : ℚ
deriving Repr, DecidableEq

/-- The decision dictionary returned by `generate_signal`. -/
structure SignalResult where
  signal : Signal
  confidence : ℤ
  reasons : List Msg
  warnings : List Msg
  override_reason : Bool
deriving Repr, DecidableEq

/-- CHECK #-1: the daily-price-drop score penalty
(min(|change| · 5, 60) when the day change is below −8 %). -/
def dailyDropPenalty (price_change_percent : ℚ) : ℚ :=
  if price_change_percent < -8 then min (|price_change_percent| * 5) 60 else 0

/-- The debt/equity normalization of CHECK #-0.5: values above 100 are
read as percentages and divided by 100. -/
def dteRatio (dte : ℚ) : ℚ := if dte > 100 then dte / 100 else dte

/-- CHECK #-0.5: the (negative) score contribution of the normalized
debt/equity check: −30 above 10×, −20 above 3×. -/
def dtePenaltyMain (dte : Option ℚ) : ℚ :=
  match dte with
  | none => 0
  | some d => if dteRatio d > 10 then -30 else if dteRatio d > 3 then -20 else 0

/-- The "kept for backward compatibility" check right after CHECK #-0.5:
a further −30 for raw debt/equity above 300. -/
def dtePenaltyLegacy (dte : Option ℚ) : ℚ :=
  match dte with
  | none => 0
  | some d => if d > 300 then -30 else 0

/-- The second redundant extreme-debt check, placed between the volume
divergence check and the financial-health block: −50 for raw debt/equity
above 300. -/
def dtePenaltyMid (dte : Option ℚ) : ℚ :=
  match dte with
  | none => 0
  | some d => if d > 300 then -50 else 0

/-- The running score accumulated by an invocation that reaches the
weighted scoring pass, including the pre-override penalties.  The volume
divergence penalty term calls `check_volume_divergence` with a price
change of 0 because the source rebinds `price_change_percent = 0`
immediately before that call. -/
def scoreTotal (ind : Indicators) (mc : MarketContext)
    (fundamentals : Option Fundamentals) (price_change_percent : ℚ) : ℚ :=
  let dte := dteOf fundamentals
  let pre := -dailyDropPenalty price_change_percent
    + dtePenaltyMain dte + dtePenaltyLegacy dte
    + (match check_volume_divergence ind.volume_ratio 0 with
       | some _ => -30 | none => 0)
    + dtePenaltyMid dte
  pre
    + (if ind.adx_regime = Regime.RANGING then -15 else 0)
    + (if ind.trend_direction = TrendDir.BULLISH then 20 else -20)
    + (match ind.rsi_signal with
       | Zone.oversold => 15 | Zone.overbought => -15 | Zone.neutral => 0)
    + (if ind.stoch_k > 85 then -30
       else if ind.stoch_signal = Zone.oversold then 15 else 0)
    + (if ind.macd_cross = MacdCross.bullish then 10 else -10)
    + (if mc.vix_high_volatility then -15 else 0)

/-- `confidence = max(0, min(100, 50 + score))` of the scoring pass, before
the final `int()` conversion. -/
def clampConfidence (ind : Indicators) (mc : MarketContext)
    (fundamentals : Option Fundamentals) (price_change_percent : ℚ) : ℚ :=
  max 0 (min 100 (50 + scoreTotal ind mc fundamentals price_change_percent))

/-- The final conservative mapping of the scoring pass, evaluated on the
unconverted clamp value. -/
def mapSignal (confidence : ℚ) (regime : Regime) : Signal :=
  if confidence ≥ 70 ∧ regime = Regime.TRENDING then Signal.BUY
  else if confidence ≤ 30 then Signal.SELL
  else if confidence ≥ 50 then Signal.HOLD
  else Signal.WAIT

/-- Reasons list of the scoring pass, in emission order. -/
def scoringReasons (ind : Indicators) : List Msg :=
  (if ind.trend_direction = TrendDir.BULLISH then [Msg.trendBullish] else [Msg.trendBearish])
  ++ (match ind.rsi_signal with
      | Zone.oversold => [Msg.rsiOversold] | _ => [])
  ++ (if ind.stoch_k > 85 then []
      else if ind.stoch_signal = Zone.oversold then [Msg.stochOversold] else [])
  ++ (if ind.macd_cross = MacdCross.bullish then [Msg.macdBullish] else [])

/-- Warnings list of the scoring pass (those appended after the overrides),
in emission order. -/
def scoringWarnings (ind : Indicators) (mc : MarketContext) : List Msg :=
  (if ind.adx_regime = Regime.RANGING then [Msg.rangingWarn] else [])
  ++ (match ind.rsi_signal with
      | Zone.overbought => [Msg.rsiOverboughtWarn] | _ => [])
  ++ (if ind.stoch_k > 85 then [Msg.stochExtremeWarn] else [])
  ++ (if mc.vix_high_volatility then [Msg.vixWarn] else [])
  ++ (if ind.price_current > ind.pivot_resistance * (98/100) then [Msg.resistanceWarn] else [])
  ++ (if ind.price_current < ind.pivot_support * (102/100) then [Msg.supportWarn] else [])

/-- Warnings accumulated before the overrides return (daily drop,
debt/equity checks and — on the fall-through path — volume divergence). -/
def preWarnings (fundamentals : Option Fundamentals) (price_change_percent : ℚ) : List Msg :=
  (if price_change_percent < -8 then [Msg.dailyDropWarn] else [])
  ++ (match dteOf fundamentals with
      | none => []
      | some d =>
        if dteRatio d > 10 then [Msg.dteCriticalWarn]
        else if dteRatio d > 3 then [Msg.dteHighWarn] else [])
  ++ (match dteOf fundamentals with
      | none => []
      | some d => if d > 300 then [Msg.dteLegacyWarn] else [])

/-- `TechnicalAnalyzer.generate_signal`, in the source's evaluation order:
daily-drop and debt/equity penalties accumulate into the score; the
massive-drop override returns first, then the overbought SELL trigger,
then (after the entry-block flag, the neutered volume-divergence check and
the second extreme-debt penalty) the financial-health block, the earnings
override, the standard R/R and volume checks, and finally the weighted
scoring pass.  The local `price_change_percent` is rebound to `0` before
`check_volume_divergence`, exactly as in the source. -/
def generate_signal (ind : Indicators) (mc : MarketContext) (risk : RiskData)
    (earnings_days : Option ℤ) (fundamentals : Option Fundamentals)
    (massive_drop_detected : Option MassiveDrop)
    (price_change_percent : ℚ) : SignalResult :=
  match massive_drop_detected with
  | some _ =>
    { signal := Signal.WAIT, confidence := 10,
      reasons := [Msg.massiveDropWarn], warnings := [Msg.massiveDropAction],
      override_reason := true }
  | none =>
  match check_sell_trigger ind.rsi_value ind.stoch_k ind.volume_ratio with
  | some _ =>
    { signal := Signal.SELL, confidence := 85,
      reasons := [Msg.sellTriggerMsg], warnings := [Msg.sellTriggerAction],
      override_reason := true }
  | none =>
  let entry_block := check_entry_block risk.risk_reward_ratio
  let volume_divergence := check_volume_divergence ind.volume_ratio 0
  match check_financial_health_block fundamentals with
  | some forced =>
    { signal := forced, confidence := 15,
      reasons := [Msg.financialBlockMsg], warnings := [Msg.financialBlockAction],
      override_reason := true }
  | none =>
  match check_earnings_proximity earnings_days with
  | some _ =>
    { signal := Signal.WAIT, confidence := 20,
      reasons := [Msg.earningsMsg], warnings := [Msg.earningsAction],
      override_reason := true }
  | none =>
  if risk.risk_reward_ratio < 1 ∧ entry_block.isNone then
    { signal := Signal.NEUTRAL, confidence := 20,
      reasons := [Msg.rrReason], warnings := [Msg.rrSubunitar],
      override_reason := true }
  else if ind.volume_ratio < 1/2 ∧ volume_divergence.isNone then
    { signal := Signal.NEUTRAL, confidence := 20,
      reasons := [Msg.volumeReason], warnings := [Msg.volumeLow],
      override_reason := true }
  else
    let conf := clampConfidence ind mc fundamentals price_change_percent
    { signal := mapSignal conf ind.adx_regime
      confidence := pyTrunc conf
      reasons := scoringReasons ind
      warnings := preWarnings fundamentals price_change_percent
        ++ (match volume_divergence with
            | some _ => [Msg.volumeDivergenceMsg] | none => [])
        ++ (match dteOf fundamentals with
            | none => []
            | some d => if d > 300 then [Msg.dteMidWarn] else [])
        ++ scoringWarnings ind mc
      override_reason := false }

/-! ## Entry Optimizer (`optimize_entry.py`) -/

inductive EntryLevel where
  | ema20 | ema50 | supportPivot
deriving Repr, DecidableEq

/-- One pullback candidate of `EntryOptimizer.optimize_entry`. -/
structure Cand where
  level : EntryLevel
  price : ℚ
  distance_percent : ℚ
deriving Repr, DecidableEq

/-- Stable insertion, ascending by `distance_percent`. -/
def insertByDist (x : Cand) : List Cand → List Cand
  | [] => [x]
  | y :: ys =>
    if x.distance_percent ≤ y.distance_percent then x :: y :: ys
    else y :: insertByDist x ys

/-- The source's `potential_entries.sort(key=lambda x: x['distance_percent'])`:
a stable ascending sort (insertion sort is stable, and Python's sort is
stable, so they agree). -/
def sortByDist : List Cand → List Cand
  | [] => []
  | x :: xs => insertByDist x (sortByDist xs)

/-- The stop-loss the optimizer attaches to a candidate entry:
`candidate − 1.5·ATR`, or 3 % below the candidate if that is ≤ 0.01. -/
def entrySL (price atr : ℚ) : ℚ :=
  let s := price - atr * (3/2)
  if s ≤ 1/100 then price * (97/100) else s

/-- The loop body's acceptance test: positive risk and
`(resistance − entry) / risk ≥ target`. -/
def entryQualifies (resistance atr target_rr : ℚ) (c : Cand) : Bool :=
  let sl := entrySL c.price atr
  let risk := c.price - sl
  decide (0 < risk ∧ (resistance - c.price) / risk ≥ target_rr)

/-- Result dictionary of `optimize_entry` (numeric and tag fields; the
message strings and the 1-decimal `pullback_distance` display field are
omitted).  `warned` records whether the result carries a `warning` key. -/
structure EntryResult where
  optimized : Bool
  current_rr : ℚ
  ideal_entry : ℚ
  ideal_sl : ℚ
  ideal_tp : ℚ
  ideal_rr : ℚ
  entry_level : Option EntryLevel
  success : Bool
  warned : Bool
deriving Repr, DecidableEq

/-- The candidate pullback levels of `optimize_entry`, in source order:
EMA 20 when more than 2 % below the price, EMA 50 when more than 5 %
below, pivot support when more than 3 % below. -/
def entryCands (current_price ema_20 ema_50 support : ℚ) : List Cand :=
  (if ema_20 < current_price * (98/100) then
    [{ level := EntryLevel.ema20, price := ema_20
       distance_percent := (current_price - ema_20) / current_price * 100 }] else [])
  ++ (if ema_50 < current_price * (95/100) then
    [{ level := EntryLevel.ema50, price := ema_50
       distance_percent := (current_price - ema_50) / current_price * 100 }] else [])
  ++ (if support < current_price * (97/100) then
    [{ level := EntryLevel.supportPivot, price := support
       distance_percent := (current_price - support) / current_price * 100 }] else [])

/-- `EntryOptimizer.optimize_entry`.  The candidates are sorted by
distance to the price and the first one passing `entryQualifies` is
returned; with no qualifying candidate the closest one is returned with a
warning, and with no candidate at all an unoptimized result is
returned. -/
def optimize_entry (target_rr current_price ema_20 ema_50 support resistance atr
    current_rr : ℚ) : EntryResult :=
  if current_rr ≥ target_rr then
    { optimized := false, current_rr := pyRound2 current_rr
      ideal_entry := current_price, ideal_sl := current_price - atr * (3/2)
      ideal_tp := resistance, ideal_rr := current_rr
      entry_level := none, success := false, warned := false }
  else
    match sortByDist (entryCands current_price ema_20 ema_50 support) with
    | [] =>
      { optimized := false, current_rr := pyRound2 current_rr
        ideal_entry := current_price, ideal_sl := support - atr * (1/2)
        ideal_tp := resistance, ideal_rr := current_rr
        entry_level := none, success := false, warned := true }
    | c0 :: rest =>
      match (c0 :: rest).find? (entryQualifies resistance atr target_rr) with
      | some c =>
        { optimized := true, current_rr := pyRound2 current_rr
          ideal_entry := pyRound2 c.price
          ideal_sl := pyRound2 (entrySL c.price atr)
          ideal_tp := pyRound2 resistance
          ideal_rr := pyRound2 ((resistance - c.price) / (c.price - entrySL c.price atr))
          entry_level := some c.level, success := true, warned := false }
      | none =>
        -- no candidate reaches the target: the closest one, with a warning;
        -- this branch recomputes the stop-loss without the 0.01 fallback.
        let sl := c0.price - atr * (3/2)
        let risk := c0.price - sl
        { optimized := true, current_rr := pyRound2 current_rr
          ideal_entry := pyRound2 c0.price
          ideal_sl := pyRound2 sl
          ideal_tp := pyRound2 resistance
          ideal_rr := pyRound2 (if risk > 0 then (resistance - c0.price) / risk else 0)
          entry_level := some c0.level, success := false, warned := true }

/-! ## Indicator Calculator (`TechnicalAnalyzer`, rolling series)

Pandas series are modelled as `List (Option ℚ)`; a `none` entry is a NaN.
Rolling statistics with the default `min_periods = window` are `none` for
the first `window − 1` positions and whenever the window contains a NaN. -/

/-- Map every position of `xs` to a statistic of its reversed prefix:
at position `i` the argument handed to `f` is the reversed prefix of the
series through `i` (prepended to the accumulator `acc`, which callers
start empty).  Rolling windows are its `take w` — the last `w` entries of
the prefix in reverse order, which is irrelevant to the sums, minima and
maxima taken of them. -/
def rollMap (f : List α → β) : List α → List α → List β
  | _, [] => []
  | acc, x :: t => f (x :: acc) :: rollMap f (x :: acc) t

/-- `Series.rolling(w).mean()` over a NaN-free series. -/
def rmean (w : ℕ) (xs : List ℚ) : List (Option ℚ) :=
  rollMap (fun pre =>
    if w ≤ pre.length then some ((pre.take w).sum / w) else none) [] xs

/-- All-some extraction of a window (a window containing a NaN yields a
NaN statistic). -/
def seqO : List (Option ℚ) → Option (List ℚ)
  | [] => some []
  | none :: _ => none
  | some x :: t => (seqO t).map (fun l => x :: l)

/-- `Series.rolling(w).mean()` over a series that may hold NaNs. -/
def rmeanO (w : ℕ) (xs : List (Option ℚ)) : List (Option ℚ) :=
  rollMap (fun pre =>
    if w ≤ pre.length then (seqO (pre.take w)).map (fun l => l.sum / w) else none) [] xs

/-- `Series.rolling(w).min()` over a series that may hold NaNs. -/
def rminO (w : ℕ) (xs : List (Option ℚ)) : List (Option ℚ) :=
  rollMap (fun pre =>
    if w ≤ pre.length then (seqO (pre.take w)).bind (fun l => l.min?) else none) [] xs

/-- `Series.rolling(w).max()` over a series that may hold NaNs. -/
def rmaxO (w : ℕ) (xs : List (Option ℚ)) : List (Option ℚ) :=
  rollMap (fun pre =>
    if w ≤ pre.length then (seqO (pre.take w)).bind (fun l => l.max?) else none) [] xs

/-- Elementwise combination of two series with a possibly-NaN result. -/
def zipO2 (f : ℚ → ℚ → Option ℚ) (xs ys : List (Option ℚ)) : List (Option ℚ) :=
  List.zipWith (fun a b =>
    match a, b with
    | some a, some b => f a b
    | _, _ => none) xs ys

/-- Elementwise combination of three series with a possibly-NaN result. -/
def zipO3 (f : ℚ → ℚ → ℚ → Option ℚ) (xs ys zs : List (Option ℚ)) : List (Option ℚ) :=
  List.zipWith (fun a bc =>
    match a, bc with
    | some a, (some b, some c) => f a b c
    | _, _ => none) xs (List.zipWith (fun b c => (b, c)) ys zs)

/-- `close.diff()`: NaN at position 0, then successive differences. -/
def deltaSeries (xs : List ℚ) : List (Option ℚ) :=
  match xs with
  | [] => []
  | _ :: t => none :: List.zipWith (fun a b => some (a - b)) t xs

/-- `delta.where(delta > 0, 0)`: the positive deltas (the NaN at position 0
fails the comparison and becomes 0, as in pandas). -/
def gainSeries (xs : List ℚ) : List ℚ :=
  (deltaSeries xs).map (fun o =>
    match o with
    | some d => if 0 < d then d else 0
    | none => 0)

/-- `-delta.where(delta < 0, 0)`: the negated negative deltas. -/
def lossSeries (xs : List ℚ) : List ℚ :=
  (deltaSeries xs).map (fun o =>
    match o with
    | some d => if d < 0 then -d else 0
    | none => 0)

/-- `calculate_rsi` as a series over the closes.  numpy float semantics at
the division `gain/loss`: average loss 0 with positive average gain gives
`rs = +inf` hence RSI exactly 100, and 0/0 gives NaN; both cases are
written out as branches. -/
def rsiSeries (closes : List ℚ) : List (Option ℚ) :=
  zipO2 (fun g l =>
      if l = 0 then (if g = 0 then none else some 100)
      else some (100 - 100 / (1 + g / l)))
    (rmean 14 (gainSeries closes)) (rmean 14 (lossSeries closes))

/-- The raw stochastic-RSI series of `calculate_stoch_rsi`:
`(rsi − min₁₄ rsi) / (max₁₄ rsi − min₁₄ rsi) · 100`.  When the window is
constant the numerator and denominator are both 0 (NaN). -/
def stochSeries (closes : List ℚ) : List (Option ℚ) :=
  let rsi := rsiSeries closes
  zipO3 (fun r lo hi =>
      if hi - lo = 0 then none else some ((r - lo) / (hi - lo) * 100))
    rsi (rminO 14 rsi) (rmaxO 14 rsi)

/-- The smoothed %K of `calculate_stoch_rsi`. -/
def kSeries (closes : List ℚ) : List (Option ℚ) := rmeanO 3 (stochSeries closes)

/-- The smoothed %D of `calculate_stoch_rsi`. -/
def dSeries (closes : List ℚ) : List (Option ℚ) := rmeanO 3 (kSeries closes)

/-- The true-range series of `calculate_adx`/`calculate_atr`: the rowwise
`max` skips the NaNs of the shifted terms at position 0. -/
def trSeries (bars : List Bar) : List ℚ :=
  match bars with
  | [] => []
  | b :: t =>
    (b.high - b.low) ::
      List.zipWith (fun cur prev =>
        max (cur.high - cur.low) (max |cur.high - prev.close| |cur.low - prev.close|))
        t (b :: t)

/-- `+DM`: the positive directional moves (`up_move.where(...)`; the NaN of
the shift at position 0 fails the comparison and becomes 0). -/
def posDmSeries (bars : List Bar) : List ℚ :=
  match bars with
  | [] => []
  | b :: t =>
    0 :: List.zipWith (fun cur prev =>
      let u := cur.high - prev.high
      let dn := prev.low - cur.low
      if dn < u ∧ 0 < u then u else 0) t (b :: t)

/-- `−DM`: the negative directional moves. -/
def negDmSeries (bars : List Bar) : List ℚ :=
  match bars with
  | [] => []
  | b :: t =>
    0 :: List.zipWith (fun cur prev =>
      let u := cur.high - prev.high
      let dn := prev.low - cur.low
      if u < dn ∧ 0 < dn then dn else 0) t (b :: t)

/-- The ATR(14) series (`calculate_atr` and the `atr` of `calculate_adx`). -/
def atrSeries (bars : List Bar) : List (Option ℚ) := rmean 14 (trSeries bars)

/-- `+DI = 100 · (mean₁₄ +DM / ATR)`.  An ATR of 0 gives a numpy infinity
or NaN, in either case a NaN in the following `dx`; it is modelled as NaN
here. -/
def pdiSeries (bars : List Bar) : List (Option ℚ) :=
  zipO2 (fun p a => if a = 0 then none else some (100 * (p / a)))
    (rmean 14 (posDmSeries bars)) (atrSeries bars)

/-- `−DI = 100 · (mean₁₄ −DM / ATR)`. -/
def ndiSeries (bars : List Bar) : List (Option ℚ) :=
  zipO2 (fun n a => if a = 0 then none else some (100 * (n / a)))
    (rmean 14 (negDmSeries bars)) (atrSeries bars)

/-- `DX = 100·|+DI − −DI| / (+DI + −DI)` (0/0 is NaN). -/
def dxSeries (bars : List Bar) : List (Option ℚ) :=
  zipO2 (fun p n => if p + n = 0 then none else some (100 * |p - n| / (p + n)))
    (pdiSeries bars) (ndiSeries bars)

/-- The ADX(14) series. -/
def adxSeries (bars : List Bar) : List (Option ℚ) := rmeanO 14 (dxSeries bars)

/-- `.iloc[-1]` of a possibly-NaN series: the last entry, or NaN when the
series is empty. -/
def lastO (xs : List (Option ℚ)) : Option ℚ := xs.getLast?.bind id

/-- The RSI value stored in the snapshot (`rsi.iloc[-1]`). -/
def lastRSI (closes : List ℚ) : Option ℚ := lastO (rsiSeries closes)

/-- The Stoch-RSI %K value stored in the snapshot. -/
def lastK (closes : List ℚ) : Option ℚ := lastO (kSeries closes)

/-- The Stoch-RSI %D value stored in the snapshot. -/
def lastD (closes : List ℚ) : Option ℚ := lastO (dSeries closes)

/-- The ADX value stored in the snapshot. -/
def lastADX (bars : List Bar) : Option ℚ := lastO (adxSeries bars)

/-- The ATR value stored in the snapshot. -/
def lastATR (bars : List Bar) : Option ℚ := lastO (atrSeries bars)

/-- The validated Donchian lower channel of `calculate_donchian_channel`:
the rolling 20-bar minimum of the lows passed through
`validate_price` (NaNs become the 0.01 floor). -/
def lowChannelSeries (bars : List Bar) : List ℚ :=
  (rminO 20 ((bars.map Bar.low).map some)).map
    (fun o => validate_price_nan o (1/100))

/-- The Donchian `lower` field of the snapshot:
`round(low_channel.iloc[-1], 2)` (`none` when the series is empty and
`.iloc[-1]` raises). -/
def donchianLowerLast (bars : List Bar) : Option ℚ :=
  (lowChannelSeries bars).getLast?.map pyRound2

/-! ## Example inputs used by the concrete evaluations -/

/-- A neutral indicator snapshot: trending regime, bullish trend, bullish
MACD, everything else in the neutral zone. -/
def baseInd : Indicators :=
  { rsi_value := 50, rsi_signal := Zone.neutral
    stoch_k := 50, stoch_signal := Zone.neutral
    adx_regime := Regime.TRENDING, trend_direction := TrendDir.BULLISH
    macd_cross := MacdCross.bullish, volume_ratio := 1
    price_current := 100, pivot_support := 90, pivot_resistance := 110 }

/-- An overbought snapshot on thin volume: the SELL-trigger conditions
RSI > 70, Stoch-K > 90, volume ratio < 0.5 all hold. -/
def overboughtInd : Indicators :=
  { baseInd with rsi_value := 80, stoch_k := 95, volume_ratio := 3/10 }

/-- The snapshot for the volume-divergence scenario: volume ratio 0.6. -/
def lowVolInd : Indicators := { baseInd with volume_ratio := 6/10 }

def baseMC : MarketContext := { vix_high_volatility := false }

def baseRisk : RiskData := { risk_reward_ratio := 2 }

/-- A drop alert as produced by `detect_massive_drop` on a −10 % session. -/
def dropAlert : MassiveDrop :=
  { drop_percent := -10, previous_close := 100, current_close := 90
    volume_spike := false, volume_ratio := 1 }

/-- A bar with no price movement. -/
def flatBar : Bar :=
  { openPrice := 100, high := 100, low := 100, close := 100, volume := 1000 }

/-- Twenty well-formed bars with zero price movement. -/
def flat20 : List Bar :=
  [flatBar, flatBar, flatBar, flatBar, flatBar, flatBar, flatBar, flatBar,
   flatBar, flatBar, flatBar, flatBar, flatBar, flatBar, flatBar, flatBar,
   flatBar, flatBar, flatBar, flatBar]

/-! ## Theorems -/

/-- C1: whenever `generate_signal` is handed a massive-drop detection, it
returns signal WAIT with confidence 10, whatever every other input is —
the massive-drop override is checked before the overbought SELL trigger
and every later rule, so it short-circuits all of them. -/
theorem C1_massive_drop_wins (ind : Indicators) (mc : MarketContext)
    (risk : RiskData) (ed : Option ℤ) (f : Option Fundamentals)
    (md : MassiveDrop) (pcp : ℚ) :
    (generate_signal ind mc risk ed f (some md) pcp).signal = Signal.WAIT ∧
    (generate_signal ind mc risk ed f (some md) pcp).confidence = 10 :=
  ⟨rfl, rfl⟩

/-- C7 counterexample: on a Python object that `float()` cannot convert
(a non-numeric input), `validate_price` raises a `ValueError`/`TypeError`
instead of substituting the minimum price, so it is not total on arbitrary
inputs. -/
theorem C7_counterexample : validate_price PyVal.obj (1/100) = none := rfl

/-- C7 amended: for every input other than a non-convertible object —
`None`, NaN and every numeric value — `validate_price` never raises:
missing values are replaced by the minimum price, numeric values `q` yield
`max(min_price, q)` (so non-positive values become the minimum price), and
the result is always at least `min_price`. -/
theorem C7_amended (p : PyVal) (m : ℚ) (h : p ≠ PyVal.obj) :
    ∃ r, validate_price p m = some r ∧ m ≤ r ∧
      ((p = PyVal.pynone ∨ p = PyVal.nan) → r = m) ∧
      (∀ q, p = PyVal.num q → r = max m q) := by
  cases p with
  | pynone => exact ⟨m, rfl, le_refl m, fun _ => rfl, fun q hq => by cases hq⟩
  | nan => exact ⟨m, rfl, le_refl m, fun _ => rfl, fun q hq => by cases hq⟩
  | num q =>
    refine ⟨max m q, rfl, le_max_left m q, fun hc => ?_, fun q2 hq => ?_⟩
    · rcases hc with hc | hc <;> cases hc
    · cases hq; rfl
  | obj => exact absurd rfl h

/-- C7 witness: a negative numeric price is replaced by the 0.01 floor. -/
theorem C7_witness :
    ∃ r, validate_price (PyVal.num (-5)) (1/100) = some r ∧ (1/100) ≤ r ∧
      ((PyVal.num (-5) = PyVal.pynone ∨ PyVal.num (-5) = PyVal.nan) → r = 1/100) ∧
      (∀ q, PyVal.num (-5) = PyVal.num q → r = max (1/100) q) :=
  C7_amended (PyVal.num (-5)) (1/100) (by decide)

/-- C8: `detect_massive_drop` returns `None` on every series of fewer than
two bars, and on the two-bar series with closes 100 then 90 (a −10 % move)
with threshold 8 % it returns an alert with `drop_percent = −10.0`, the
volume-spike flag `volume_ratio > 1.5` (false here, the short series gets
ratio 1.0) and the fixed mandatory wait-24-48h action message. -/
theorem C8_detect_massive_drop :
    (∀ (bars : List Bar) (t : ℚ), bars.length < 2 → detect_massive_drop bars t = none) ∧
    detect_massive_drop
      [{ openPrice := 100, high := 101, low := 99, close := 100, volume := 1000 },
       { openPrice := 100, high := 100, low := 89, close := 90, volume := 1000 }] 8 =
      some { drop_percent := -10, previous_close := 100, current_close := 90
             volume_spike := false, volume_ratio := 1 } := by
  constructor
  · intro bars t h
    simp [detect_massive_drop, h]
  · norm_num [detect_massive_drop, pyRound2, rhe]

/-- C8 witness: the short-series clause at the empty series. -/
theorem C8_witness : detect_massive_drop [] 8 = none :=
  C8_detect_massive_drop.1 [] 8 (by decide)

/-- Helper: when the validated stop loss lands exactly on the entry price,
the stop-loss percentage (the position-sizing divisor) is zero. -/
theorem riskSLPercent_eq_zero {P a s : ℚ} (hP : P ≠ 0)
    (h : riskStopLoss P a s = P) : riskSLPercent P a s = 0 := by
  unfold riskStopLoss at h
  unfold riskSLPercent
  by_cases hgt : (P - validate_stop_loss (max (P - a * (3/2)) (s - a * (1/2))) P a) / P * 100 > 10
  · rw [if_pos hgt] at h
    exact absurd (by linarith [h]) hP
  · rw [if_neg hgt] at h
    rw [if_neg hgt, h]
    simp

/-- C10: the position-sizing division `account_risk_percent / sl_percent`
in `calculate_risk_reward` has no zero guard, so whenever the validated
stop loss equals the entry price (e.g. for ATR = 0 on a constant-price
series) the stop-loss percentage is 0 and the call raises a
`ZeroDivisionError` (modelled by `none`) instead of returning a profile. -/
theorem C10_division_by_zero (P a s r : ℚ) (h : riskStopLoss P a s = P) :
    calculate_risk_reward P a s r = none := by
  by_cases hP : P = 0
  · simp [calculate_risk_reward, hP]
  · have hz := riskSLPercent_eq_zero hP h
    simp [calculate_risk_reward, hP, hz]

/-- C10 witness: entry 100 with ATR 0 — the validated stop loss is the
entry itself and the computation raises. -/
theorem C10_witness : calculate_risk_reward 100 0 50 200 = none :=
  C10_division_by_zero 100 0 50 200
    (by norm_num [riskStopLoss, validate_stop_loss, validate_price_num, max_def])

/-- C5 counterexample: for a raw debt/equity of 1120 the three penalty
sites of `generate_signal` subtract 30 (normalized ratio above 10), 30
(legacy raw > 300 check) and 50 (second redundant raw > 300 check placed
after the volume-divergence stage) — a total of −110, not the −60 the
claim's "no other debt/equity penalty" allows; a full run on an otherwise
neutral snapshot accordingly lands at confidence 0 instead of 20. -/
theorem C5_counterexample :
    dtePenaltyMain (some 1120) + dtePenaltyLegacy (some 1120) + dtePenaltyMid (some 1120)
      = -110 ∧
    ¬ ((-110 : ℚ) = -30 + -30) ∧
    (generate_signal baseInd baseMC baseRisk none
      (some { debt_to_equity := some 1120, free_cash_flow := none }) none 0).confidence
      = 0 := by
  refine ⟨?_, by norm_num, ?_⟩
  · norm_num [dtePenaltyMain, dtePenaltyLegacy, dtePenaltyMid, dteRatio]
  · norm_num +decide [generate_signal, check_sell_trigger, check_entry_block,
      check_volume_divergence, check_financial_health_block, check_earnings_proximity,
      dteOf, truthyNum, orZero, clampConfidence, scoreTotal, dailyDropPenalty,
      dtePenaltyMain, dtePenaltyLegacy, dtePenaltyMid, dteRatio, mapSignal, pyTrunc,
      baseInd, baseMC, baseRisk, max_def, min_def]

/-- C5 amended: a percentage-form 1120 and a ratio-form 11.2 debt/equity
both normalize to the ratio 11.2 and both incur the one critical 30-point
penalty of the normalized check; for raw values above 300 the legacy
redundant check subtracts a further 30 points and a second redundant check
further down the cascade subtracts another 50 points; raw values at or
below 300 incur neither extra penalty. -/
theorem C5_amended :
    dteRatio 1120 = 56/5 ∧ dteRatio (56/5) = 56/5 ∧
    dtePenaltyMain (some 1120) = -30 ∧ dtePenaltyMain (some (56/5)) = -30 ∧
    (∀ d : ℚ, 300 < d → dtePenaltyLegacy (some d) = -30 ∧ dtePenaltyMid (some d) = -50) ∧
    (∀ d : ℚ, d ≤ 300 → dtePenaltyLegacy (some d) = 0 ∧ dtePenaltyMid (some d) = 0) := by
  refine ⟨by norm_num [dteRatio], by norm_num [dteRatio],
    by norm_num [dtePenaltyMain, dteRatio], by norm_num [dtePenaltyMain, dteRatio], ?_, ?_⟩
  · intro d hd
    constructor
    · simp [dtePenaltyLegacy, hd]
    · simp [dtePenaltyMid, hd]
  · intro d hd
    constructor
    · simp [dtePenaltyLegacy, not_lt.mpr hd]
    · simp [dtePenaltyMid, not_lt.mpr hd]

/-- C5 witness: the extra-penalty clauses at the concrete raw value 1120. -/
theorem C5_witness :
    dtePenaltyLegacy (some 1120) = -30 ∧ dtePenaltyMid (some 1120) = -50 :=
  C5_amended.2.2.2.2.1 1120 (by norm_num)

/-- C6: the volume-divergence rule itself fires on volume ratio 0.6 with a
rising price (first conjunct), but `generate_signal` rebinds the local
price change to 0 immediately before invoking it, so a call whose inputs
satisfy the claim's conditions (ratio 0.6, day change +5 %) produces no
divergence warning and no 30-point penalty: the run scores 20 + 10 on an
otherwise neutral snapshot and returns BUY at the un-penalized confidence
80 with an empty warning list. -/
theorem C6_volume_divergence_never_fires :
    (check_volume_divergence (6/10) 5).isSome = true ∧
    check_volume_divergence (6/10) 0 = none ∧
    generate_signal lowVolInd baseMC baseRisk none none none 5 =
      { signal := Signal.BUY, confidence := 80
        reasons := [Msg.trendBullish, Msg.macdBullish]
        warnings := [], override_reason := false } := by
  refine ⟨by norm_num [check_volume_divergence], by norm_num [check_volume_divergence], ?_⟩
  norm_num +decide [generate_signal, check_sell_trigger, check_entry_block,
    check_volume_divergence, check_financial_health_block, check_earnings_proximity,
    dteOf, truthyNum, orZero, clampConfidence, scoreTotal, dailyDropPenalty,
    dtePenaltyMain, dtePenaltyLegacy, dtePenaltyMid, dteRatio, mapSignal, pyTrunc,
    scoringReasons, scoringWarnings, preWarnings,
    lowVolInd, baseInd, baseMC, baseRisk, max_def, min_def]

/-- Helper: for a nonnegative ATR and an entry above the 0.01 floor, the
validated stop loss never exceeds the entry price. -/
theorem validate_stop_loss_le (sl : ℚ) {P a : ℚ} (ha : 0 ≤ a) (hP : 1/100 < P) :
    validate_stop_loss sl P a ≤ P := by
  simp only [validate_stop_loss, validate_price_num]
  by_cases h : max (1/100) sl ≥ P * (99/100)
  · rw [if_pos h]
    exact max_le (le_of_lt hP) (by linarith)
  · rw [if_neg h]
    push_neg at h
    exact max_le (le_of_lt hP) (by linarith)

/-- Helper: with ATR equal to 0 the validated stop loss is exactly the
entry price, so the stop-loss percentage is 0. -/
theorem riskSLPercent_atr_zero {P s : ℚ} (hP : 1/100 < P) :
    riskSLPercent P 0 s = 0 := by
  have hv : validate_stop_loss (max (P - 0 * (3/2)) (s - 0 * (1/2))) P 0 = P := by
    simp only [validate_stop_loss, validate_price_num]
    have h1 : P ≤ max (1/100) (max (P - 0 * (3/2)) (s - 0 * (1/2))) := by
      refine le_trans ?_ (le_max_right _ _)
      refine le_trans ?_ (le_max_left _ _)
      linarith
    rw [if_pos (by linarith)]
    rw [max_eq_right (by linarith)]
    ring
  unfold riskSLPercent
  rw [hv]
  simp

/-- Helper: a returned risk profile implies a nonzero entry price and a
nonzero stop-loss percentage (the two division sites did not raise). -/
theorem calculate_risk_reward_isSome {P a s r : ℚ}
    (h : (calculate_risk_reward P a s r).isSome = true) :
    P ≠ 0 ∧ riskSLPercent P a s ≠ 0 := by
  by_cases hP : P = 0
  · rw [hP] at h
    simp [calculate_risk_reward] at h
  · refine ⟨hP, ?_⟩
    by_cases hs : riskSLPercent P a s = 0
    · simp [calculate_risk_reward, hP, hs] at h
    · exact hs

/-- C2 counterexample: on the snapshot with entry price 0.004, ATR 0,
support 1, resistance 2, `calculate_risk_reward` returns a profile whose
stop loss is the 0.01 validation floor — strictly above the entry price of
0.004 (rounded to 0.0 in the profile), refuting "stop_loss is strictly
below the entry price" on a degenerate low-price input. -/
theorem C2_counterexample :
    (calculate_risk_reward (1/250) 0 1 2).map RiskProfile.stop_loss = some (1/100) ∧
    (calculate_risk_reward (1/250) 0 1 2).map RiskProfile.entry_price = some 0 ∧
    ¬ (1/100 : ℚ) < 0 := by
  refine ⟨?_, ?_, by norm_num⟩ <;>
    norm_num [calculate_risk_reward, riskStopLoss, riskSLPercent, riskTakeProfit,
      validate_stop_loss, validate_take_profit, validate_price_num,
      cap_risk_reward_ratio, pyRound2, rhe, max_def, min_def]

/-- C2 amended: for every snapshot with nonnegative ATR (any real ATR is a
mean of true ranges, hence nonnegative) whose entry price lies strictly
above the 0.01 validation floor, whenever `calculate_risk_reward` returns
a profile the computed stop loss (before 2-decimal display rounding) is
strictly below the entry price and the computed take profit strictly
above; for degenerate inputs such as ATR = 0 the function does not return
a profile at all (it raises, cf. the division-by-zero claim). -/
theorem C2_amended (P a s r : ℚ) (ha : 0 ≤ a) (hP : 1/100 < P)
    (hsome : (calculate_risk_reward P a s r).isSome = true) :
    riskStopLoss P a s < P ∧ P < riskTakeProfit P a r := by
  obtain ⟨hP0, hslp⟩ := calculate_risk_reward_isSome hsome
  have hapos : 0 < a := by
    rcases eq_or_lt_of_le ha with h0 | h0
    · exact absurd (riskSLPercent_atr_zero (s := s) hP) (by rw [← h0] at hslp; exact hslp)
    · exact h0
  constructor
  · unfold riskStopLoss
    by_cases hgt :
        (P - validate_stop_loss (max (P - a * (3/2)) (s - a * (1/2))) P a) / P * 100 > 10
    · rw [if_pos hgt]
      linarith
    · rw [if_neg hgt]
      have hle := validate_stop_loss_le (max (P - a * (3/2)) (s - a * (1/2))) ha hP
      refine lt_of_le_of_ne hle ?_
      intro heq
      apply hslp
      unfold riskSLPercent
      rw [if_neg hgt, heq]
      simp
  · unfold riskTakeProfit validate_take_profit validate_price_num
    by_cases h : max (1/100) (if P ≥ r * (98/100) then P + a * 3 else r - r * (2/1000))
        ≤ P * (102/100)
    · rw [if_pos h]
      linarith
    · rw [if_neg h]
      push_neg at h
      calc P ≤ P * (102/100) := by linarith
        _ < _ := h

/-- C2 witness: entry 100, ATR 2, support 90, resistance 150 returns a
profile, and its pre-rounding stop loss 97 and take profit 149.7 bracket
the entry. -/
theorem C2_witness :
    riskStopLoss 100 2 90 < 100 ∧ (100 : ℚ) < riskTakeProfit 100 2 150 :=
  C2_amended 100 2 90 150 (by norm_num) (by norm_num)
    (by norm_num [calculate_risk_reward, riskStopLoss, riskSLPercent, riskTakeProfit,
      validate_stop_loss, validate_take_profit, validate_price_num,
      cap_risk_reward_ratio, max_def, min_def])

/-- C4 counterexample: with a day change of −8.1 % on an otherwise neutral
trending snapshot the drop penalty is 40.5 points, the clamp value
`clamp(50+score, 0, 100)` is 39.5, but the decision's confidence field is
`int(39.5) = 39`: the returned confidence is the truncation of the clamp
value, not the clamp value itself. -/
theorem C4_counterexample :
    (generate_signal baseInd baseMC baseRisk none none none (-81/10)).confidence = 39 ∧
    clampConfidence baseInd baseMC none (-81/10) = 79/2 ∧
    ¬ ((39 : ℤ) : ℚ) = 79/2 := by
  refine ⟨?_, ?_, by norm_num⟩ <;>
    norm_num +decide [generate_signal, check_sell_trigger, check_entry_block,
      check_volume_divergence, check_financial_health_block, check_earnings_proximity,
      dteOf, truthyNum, orZero, clampConfidence, scoreTotal, dailyDropPenalty,
      dtePenaltyMain, dtePenaltyLegacy, dtePenaltyMid, dteRatio, mapSignal, pyTrunc,
      baseInd, baseMC, baseRisk, max_def, min_def,
      show |(81/10 : ℚ)| = 81/10 from abs_of_nonneg (by norm_num)]

/-- C4 amended: every invocation that falls through all overrides to the
weighted scoring pass (no massive drop, no SELL trigger, no
financial-health block, no earnings override, volume ratio not below 0.5;
the standard R/R branch can never fire because the entry-block flag is set
exactly when R/R < 1) returns as confidence the Python `int()` truncation
of `clamp(50 + score, 0, 100)`, and as signal exactly the claimed mapping
— BUY iff clamp ≥ 70 in a TRENDING regime, else SELL iff clamp ≤ 30, else
HOLD iff clamp ≥ 50, else WAIT — evaluated on the untruncated clamp
value. -/
theorem C4_amended (ind : Indicators) (mc : MarketContext) (risk : RiskData)
    (ed : Option ℤ) (f : Option Fundamentals) (pcp : ℚ)
    (h1 : check_sell_trigger ind.rsi_value ind.stoch_k ind.volume_ratio = none)
    (h2 : check_financial_health_block f = none)
    (h3 : check_earnings_proximity ed = none)
    (h4 : ¬ ind.volume_ratio < 1/2) :
    (generate_signal ind mc risk ed f none pcp).confidence
      = pyTrunc (clampConfidence ind mc f pcp) ∧
    (generate_signal ind mc risk ed f none pcp).signal
      = mapSignal (clampConfidence ind mc f pcp) ind.adx_regime := by
  have hrr : ¬ (risk.risk_reward_ratio < 1 ∧
      (check_entry_block risk.risk_reward_ratio).isNone = true) := by
    rintro ⟨hlt, hnone⟩
    simp [check_entry_block, hlt] at hnone
  have hvol : ¬ (ind.volume_ratio < 1/2 ∧
      (check_volume_divergence ind.volume_ratio 0).isNone = true) :=
    fun hc => h4 hc.1
  simp only [generate_signal, h1, h2, h3]
  rw [if_neg hrr, if_neg hvol]
  exact ⟨rfl, rfl⟩

/-- C4 witness: the neutral trending snapshot falls through to scoring and
gets the truncated clamp confidence and mapped signal. -/
theorem C4_witness :
    (generate_signal baseInd baseMC baseRisk none none none 0).confidence
      = pyTrunc (clampConfidence baseInd baseMC none 0) ∧
    (generate_signal baseInd baseMC baseRisk none none none 0).signal
      = mapSignal (clampConfidence baseInd baseMC none 0) baseInd.adx_regime :=
  C4_amended baseInd baseMC baseRisk none none 0
    (by norm_num [check_sell_trigger, baseInd]) rfl rfl
    (by norm_num [baseInd])

/-- C9: when the current R/R is below target, `optimize_entry` returns the
first candidate of the distance-sorted qualifying pullback list — stop
loss `candidate − 1.5·ATR` with the 3 %-below fallback when that is ≤
0.01, take profit at the resistance, accepted when the resulting R/R
reaches the target (first conjunct); and on the spec's concrete instance
current = 100, ema20 = 95 (ema50 = 96 does not qualify), support = 90,
resistance = 110, ATR = 2, current R/R = 1 it selects EMA 20 with
ideal R/R (110 − 95)/(95 − 92) = 5 (second conjunct). -/
theorem C9_optimize_entry :
    (∀ (t cp e20 e50 sup res atr rr : ℚ) (c : Cand),
      rr < t →
      (sortByDist (entryCands cp e20 e50 sup)).find? (entryQualifies res atr t) = some c →
      optimize_entry t cp e20 e50 sup res atr rr =
        { optimized := true, current_rr := pyRound2 rr
          ideal_entry := pyRound2 c.price
          ideal_sl := pyRound2 (entrySL c.price atr)
          ideal_tp := pyRound2 res
          ideal_rr := pyRound2 ((res - c.price) / (c.price - entrySL c.price atr))
          entry_level := some c.level, success := true, warned := false } ∧
        (res - c.price) / (c.price - entrySL c.price atr) ≥ t) ∧
    optimize_entry 2 100 95 96 90 110 2 1 =
      { optimized := true, current_rr := 1, ideal_entry := 95, ideal_sl := 92
        ideal_tp := 110, ideal_rr := 5, entry_level := some EntryLevel.ema20
        success := true, warned := false } := by
  constructor
  · intro t cp e20 e50 sup res atr rr c hrr hfind
    constructor
    · unfold optimize_entry
      rw [if_neg (not_le.mpr hrr)]
      cases hs : sortByDist (entryCands cp e20 e50 sup) with
      | nil => rw [hs] at hfind; simp at hfind
      | cons c0 rest =>
        rw [hs] at hfind
        simp only [hfind]
    · have := List.find?_some hfind
      have h2 := of_decide_eq_true (by simpa [entryQualifies] using this)
      exact h2.2
  · norm_num +decide [optimize_entry, entryCands, sortByDist, insertByDist,
      entryQualifies, entrySL, pyRound2, rhe, List.find?, max_def, min_def]

/-- C9 witness: the general clause applied to the concrete instance. -/
theorem C9_witness :
    optimize_entry 2 100 95 96 90 110 2 1 =
      { optimized := true, current_rr := pyRound2 1
        ideal_entry := pyRound2 (95 : ℚ)
        ideal_sl := pyRound2 (entrySL 95 2)
        ideal_tp := pyRound2 (110 : ℚ)
        ideal_rr := pyRound2 ((110 - 95) / (95 - entrySL 95 2))
        entry_level := some EntryLevel.ema20, success := true, warned := false } ∧
    ((110 : ℚ) - 95) / (95 - entrySL 95 2) ≥ 2 := by
  have h := C9_optimize_entry.1 2 100 95 96 90 110 2 1
    { level := EntryLevel.ema20, price := 95, distance_percent := 5 }
    (by norm_num)
    (by norm_num +decide [entryCands, sortByDist, insertByDist,
      entryQualifies, entrySL, List.find?])
  exact h

/-! ### Rolling-series lemmas -/

theorem rollMap_length {f : List α → β} :
    ∀ (acc xs : List α), (rollMap f acc xs).length = xs.length := by
  intro acc xs
  induction xs generalizing acc with
  | nil => rfl
  | cons x t ih => simp [rollMap, ih]

theorem rollMap_mem {f : List α → β} :
    ∀ {acc xs : List α} {o : β}, o ∈ rollMap f acc xs →
      ∃ pre, o = f pre ∧ ∀ a ∈ pre, a ∈ xs ∨ a ∈ acc := by
  intro acc xs
  induction xs generalizing acc with
  | nil => intro o h; simp [rollMap] at h
  | cons x t ih =>
    intro o h
    rw [rollMap] at h
    rcases List.mem_cons.mp h with h1 | h1
    · refine ⟨x :: acc, h1, fun a ha => ?_⟩
      rcases List.mem_cons.mp ha with rfl | ha
      · exact Or.inl (List.mem_cons_self _ _)
      · exact Or.inr ha
    · obtain ⟨pre, hpre, hmem⟩ := ih h1
      refine ⟨pre, hpre, fun a ha => ?_⟩
      rcases hmem a ha with h2 | h2
      · exact Or.inl (List.mem_cons_of_mem _ h2)
      · rcases List.mem_cons.mp h2 with rfl | h3
        · exact Or.inl (List.mem_cons_self _ _)
        · exact Or.inr h3

/-- Every statistic in a rolling series is the statistic of a sub-multiset
of the series (elements of the prefix window all come from the series). -/
theorem rollMap_mem_nil {f : List α → β} {xs : List α} {o : β}
    (h : o ∈ rollMap f [] xs) : ∃ pre, o = f pre ∧ ∀ a ∈ pre, a ∈ xs := by
  obtain ⟨pre, hpre, hmem⟩ := rollMap_mem h
  exact ⟨pre, hpre, fun a ha => (hmem a ha).resolve_right (by simp)⟩

theorem rollMap_getElem? {f : List α → β} :
    ∀ {xs : List α} (acc : List α) {i : ℕ}, i < xs.length →
      (rollMap f acc xs)[i]? = some (f ((xs.take (i + 1)).reverse ++ acc)) := by
  intro xs
  induction xs with
  | nil => intro acc i h; simp at h
  | cons x t ih =>
    intro acc i h
    cases i with
    | zero => simp [rollMap]
    | succ i =>
      have h2 : i < t.length := by simpa using h
      simp only [rollMap, List.getElem?_cons_succ]
      rw [ih (x :: acc) h2]
      simp [List.take_succ_cons, List.reverse_cons, List.append_assoc]

theorem seqO_length : ∀ {xs : List (Option ℚ)} {m : List ℚ},
    seqO xs = some m → m.length = xs.length := by
  intro xs
  induction xs with
  | nil =>
    intro m h
    simp only [seqO, Option.some.injEq] at h
    rw [← h]
    rfl
  | cons x t ih =>
    intro m h
    cases x with
    | none => simp [seqO] at h
    | some v =>
      rw [seqO] at h
      cases hs : seqO t with
      | none => rw [hs] at h; simp at h
      | some m2 =>
        rw [hs] at h
        have hm : v :: m2 = m := by simpa using h
        rw [← hm]
        simp [ih hs]

theorem seqO_mem_of : ∀ {xs : List (Option ℚ)} {m : List ℚ},
    seqO xs = some m → ∀ {x : ℚ}, x ∈ m → some x ∈ xs := by
  intro xs
  induction xs with
  | nil =>
    intro m h x hx
    simp only [seqO, Option.some.injEq] at h
    rw [← h] at hx
    simp at hx
  | cons o t ih =>
    intro m h x hx
    cases o with
    | none => simp [seqO] at h
    | some v =>
      rw [seqO] at h
      cases hs : seqO t with
      | none => rw [hs] at h; simp at h
      | some m2 =>
        rw [hs] at h
        have hm : v :: m2 = m := by simpa using h
        rw [← hm] at hx
        rcases List.mem_cons.mp hx with rfl | hx2
        · exact List.mem_cons_self _ _
        · exact List.mem_cons_of_mem _ (ih hs hx2)

theorem seqO_mem_to : ∀ {xs : List (Option ℚ)} {m : List ℚ},
    seqO xs = some m → ∀ {x : ℚ}, some x ∈ xs → x ∈ m := by
  intro xs
  induction xs with
  | nil => intro m _ x hx; simp at hx
  | cons o t ih =>
    intro m h x hx
    cases o with
    | none => simp [seqO] at h
    | some v =>
      rw [seqO] at h
      cases hs : seqO t with
      | none => rw [hs] at h; simp at h
      | some m2 =>
        rw [hs] at h
        have hm : v :: m2 = m := by simpa using h
        rw [← hm]
        rcases List.mem_cons.mp hx with he | hx2
        · exact (Option.some.inj he) ▸ List.mem_cons_self _ _
        · exact List.mem_cons_of_mem _ (ih hs hx2)

theorem zipWith_getElem?_some {f : α → β → γ} :
    ∀ {as : List α} {bs : List β} {i : ℕ} {c : γ},
      (List.zipWith f as bs)[i]? = some c →
      ∃ a b, as[i]? = some a ∧ bs[i]? = some b ∧ c = f a b := by
  intro as
  induction as with
  | nil => intro bs i c h; simp at h
  | cons a as ih =>
    intro bs i c h
    cases bs with
    | nil => simp at h
    | cons b bs =>
      cases i with
      | zero =>
        simp only [List.zipWith_cons_cons, List.getElem?_cons_zero,
          Option.some.injEq] at h
        exact ⟨a, b, by simp, by simp, h.symm⟩
      | succ i =>
        simp only [List.zipWith_cons_cons, List.getElem?_cons_succ] at h ⊢
        exact ih h

theorem zipWith_mem_decomp {f : α → β → γ} {as : List α} {bs : List β} {o : γ}
    (h : o ∈ List.zipWith f as bs) :
    ∃ a b, a ∈ as ∧ b ∈ bs ∧ o = f a b := by
  obtain ⟨i, hi⟩ := List.mem_iff_getElem?.mp h
  obtain ⟨a, b, ha, hb, hab⟩ := zipWith_getElem?_some hi
  exact ⟨a, b, List.mem_iff_getElem?.mpr ⟨i, ha⟩, List.mem_iff_getElem?.mpr ⟨i, hb⟩, hab⟩

theorem foldl_min_le_init : ∀ (ys : List ℚ) (z : ℚ), List.foldl min z ys ≤ z := by
  intro ys
  induction ys with
  | nil => intro z; simp
  | cons y t ih =>
    intro z
    rw [List.foldl_cons]
    exact le_trans (ih (min z y)) (min_le_left _ _)

theorem foldl_min_le_mem : ∀ {ys : List ℚ} {b : ℚ} (z : ℚ),
    b ∈ ys → List.foldl min z ys ≤ b := by
  intro ys
  induction ys with
  | nil => intro b z h; simp at h
  | cons y t ih =>
    intro b z h
    rcases List.mem_cons.mp h with rfl | h2
    · rw [List.foldl_cons]
      exact le_trans (foldl_min_le_init t (min z b)) (min_le_right _ _)
    · rw [List.foldl_cons]
      exact ih (min z y) h2

theorem minQ_le_of_mem {l : List ℚ} {a b : ℚ} (h : l.min? = some a) (hb : b ∈ l) :
    a ≤ b := by
  cases l with
  | nil => simp at h
  | cons x t =>
    rw [List.min?_cons'] at h
    have ha := Option.some.inj h
    rcases List.mem_cons.mp hb with rfl | h2
    · rw [← ha]; exact foldl_min_le_init t b
    · rw [← ha]; exact foldl_min_le_mem x h2

theorem foldl_max_ge_init : ∀ (ys : List ℚ) (z : ℚ), z ≤ List.foldl max z ys := by
  intro ys
  induction ys with
  | nil => intro z; simp
  | cons y t ih =>
    intro z
    rw [List.foldl_cons]
    exact le_trans (le_max_left _ _) (ih (max z y))

theorem foldl_max_ge_mem : ∀ {ys : List ℚ} {b : ℚ} (z : ℚ),
    b ∈ ys → b ≤ List.foldl max z ys := by
  intro ys
  induction ys with
  | nil => intro b z h; simp at h
  | cons y t ih =>
    intro b z h
    rcases List.mem_cons.mp h with rfl | h2
    · rw [List.foldl_cons]
      exact le_trans (le_max_right _ _) (foldl_max_ge_init t (max z b))
    · rw [List.foldl_cons]
      exact ih (max z y) h2

theorem maxQ_ge_of_mem {l : List ℚ} {a b : ℚ} (h : l.max? = some a) (hb : b ∈ l) :
    b ≤ a := by
  cases l with
  | nil => simp at h
  | cons x t =>
    rw [List.max?_cons'] at h
    have ha := Option.some.inj h
    rcases List.mem_cons.mp hb with rfl | h2
    · rw [← ha]; exact foldl_max_ge_init t b
    · rw [← ha]; exact foldl_max_ge_mem x h2

theorem mem_of_getLastQ : ∀ {l : List α} {a : α}, l.getLast? = some a → a ∈ l := by
  intro l
  induction l with
  | nil => intro a h; simp at h
  | cons x t ih =>
    intro a h
    cases t with
    | nil =>
      simp only [List.getLast?_singleton, Option.some.injEq] at h
      rw [← h]
      exact List.mem_singleton_self x
    | cons y t2 =>
      rw [List.getLast?_cons_cons] at h
      exact List.mem_cons_of_mem _ (ih h)

theorem lastO_mem {xs : List (Option ℚ)} {v : ℚ} (h : lastO xs = some v) :
    some v ∈ xs := by
  unfold lastO at h
  cases hg : xs.getLast? with
  | none => rw [hg] at h; simp at h
  | some o =>
    rw [hg] at h
    have ho : o = some v := by simpa using h
    exact ho ▸ mem_of_getLastQ hg

/-- Mean of `w` values inside `[a, b]` lies inside `[a, b]`. -/
theorem mean_bounds {m : List ℚ} {w : ℕ} {a b : ℚ} (hw : 0 < w)
    (hlen : m.length = w) (h1 : ∀ x ∈ m, a ≤ x) (h2 : ∀ x ∈ m, x ≤ b) :
    a ≤ m.sum / w ∧ m.sum / w ≤ b := by
  have hwq : (0 : ℚ) < w := by exact_mod_cast hw
  have hs1 : a * w ≤ m.sum := by
    have hc := List.card_nsmul_le_sum m a h1
    rw [hlen, nsmul_eq_mul] at hc
    calc a * w = (w : ℚ) * a := by ring
      _ ≤ m.sum := hc
  have hs2 : m.sum ≤ b * w := by
    have hc := List.sum_le_card_nsmul m b h2
    rw [hlen, nsmul_eq_mul] at hc
    calc m.sum ≤ (w : ℚ) * b := hc
      _ = b * w := by ring
  constructor
  · rw [le_div_iff hwq]; exact hs1
  · rw [div_le_iff hwq]; exact hs2

/-- A defined rolling mean of a nonnegative series is nonnegative. -/
theorem rmean_nonneg {w : ℕ} {xs : List ℚ} (hxs : ∀ x ∈ xs, 0 ≤ x) :
    ∀ o ∈ rmean w xs, ∀ v, o = some v → 0 ≤ v := by
  intro o ho v hv
  rw [hv] at ho
  unfold rmean at ho
  obtain ⟨pre, hpre, hmem⟩ := rollMap_mem_nil ho
  by_cases hw : w ≤ pre.length
  · rw [if_pos hw] at hpre
    have hv2 : v = (pre.take w).sum / w := Option.some.inj hpre
    rw [hv2]
    apply div_nonneg _ (Nat.cast_nonneg w)
    exact List.sum_nonneg fun x hx => hxs x (hmem x (List.mem_of_mem_take hx))
  · rw [if_neg hw] at hpre
    exact absurd hpre (by simp)

/-- A defined rolling mean of a series whose defined entries lie in
`[a, b]` lies in `[a, b]`. -/
theorem rmeanO_bounds {w : ℕ} {xs : List (Option ℚ)} {a b : ℚ} (hw : 0 < w)
    (hxs : ∀ o ∈ xs, ∀ x, o = some x → a ≤ x ∧ x ≤ b) :
    ∀ o ∈ rmeanO w xs, ∀ v, o = some v → a ≤ v ∧ v ≤ b := by
  intro o ho v hv
  rw [hv] at ho
  unfold rmeanO at ho
  obtain ⟨pre, hpre, hmem⟩ := rollMap_mem_nil ho
  by_cases hwl : w ≤ pre.length
  · rw [if_pos hwl] at hpre
    cases hseq : seqO (pre.take w) with
    | none => rw [hseq] at hpre; simp at hpre
    | some m =>
      rw [hseq] at hpre
      have hv2 : v = m.sum / w := by simpa using hpre
      have hml : m.length = w := by
        rw [seqO_length hseq, List.length_take]
        omega
      have hbd : ∀ x ∈ m, a ≤ x ∧ x ≤ b := by
        intro x hx
        have h1 : some x ∈ pre.take w := seqO_mem_of hseq hx
        exact hxs _ (hmem _ (List.mem_of_mem_take h1)) x rfl
      have := mean_bounds hw hml (fun x hx => (hbd x hx).1) (fun x hx => (hbd x hx).2)
      rw [hv2]
      exact this
  · rw [if_neg hwl] at hpre
    exact absurd hpre (by simp)

theorem gainSeries_nonneg (xs : List ℚ) : ∀ x ∈ gainSeries xs, 0 ≤ x := by
  intro x hx
  unfold gainSeries at hx
  obtain ⟨o, _, rfl⟩ := List.mem_map.mp hx
  cases o with
  | none => norm_num
  | some d =>
    dsimp only
    split
    · linarith
    · norm_num

theorem lossSeries_nonneg (xs : List ℚ) : ∀ x ∈ lossSeries xs, 0 ≤ x := by
  intro x hx
  unfold lossSeries at hx
  obtain ⟨o, _, rfl⟩ := List.mem_map.mp hx
  cases o with
  | none => norm_num
  | some d =>
    dsimp only
    split
    · linarith
    · norm_num

theorem posDmSeries_nonneg (bars : List Bar) : ∀ x ∈ posDmSeries bars, 0 ≤ x := by
  intro x hx
  cases bars with
  | nil => simp [posDmSeries] at hx
  | cons b t =>
    unfold posDmSeries at hx
    rcases List.mem_cons.mp hx with rfl | hx2
    · norm_num
    · obtain ⟨cur, prev, _, _, rfl⟩ := zipWith_mem_decomp hx2
      dsimp only
      split
      · linarith [And.right (by assumption : _ ∧ _)]
      · norm_num

theorem negDmSeries_nonneg (bars : List Bar) : ∀ x ∈ negDmSeries bars, 0 ≤ x := by
  intro x hx
  cases bars with
  | nil => simp [negDmSeries] at hx
  | cons b t =>
    unfold negDmSeries at hx
    rcases List.mem_cons.mp hx with rfl | hx2
    · norm_num
    · obtain ⟨cur, prev, _, _, rfl⟩ := zipWith_mem_decomp hx2
      dsimp only
      split
      · linarith [And.right (by assumption : _ ∧ _)]
      · norm_num

theorem trSeries_nonneg {bars : List Bar} (hwf : ∀ b ∈ bars, b.low ≤ b.high) :
    ∀ x ∈ trSeries bars, 0 ≤ x := by
  intro x hx
  cases bars with
  | nil => simp [trSeries] at hx
  | cons b t =>
    unfold trSeries at hx
    rcases List.mem_cons.mp hx with rfl | hx2
    · have := hwf b (List.mem_cons_self _ _)
      linarith
    · obtain ⟨cur, prev, _, _, rfl⟩ := zipWith_mem_decomp hx2
      exact le_trans (abs_nonneg _)
        (le_trans (le_max_left _ _) (le_max_right _ _))

/-- Every defined RSI value lies in `[0, 100]`. -/
theorem rsiSeries_bounds (c : List ℚ) :
    ∀ o ∈ rsiSeries c, ∀ x, o = some x → 0 ≤ x ∧ x ≤ 100 := by
  intro o ho x hx
  rw [hx] at ho
  unfold rsiSeries zipO2 at ho
  obtain ⟨g, l, hg, hl, heq⟩ := zipWith_mem_decomp ho
  cases g with
  | none => simp at heq
  | some gv =>
    cases l with
    | none => simp at heq
    | some lv =>
      dsimp only at heq
      have hgv : 0 ≤ gv := rmean_nonneg (gainSeries_nonneg c) _ hg _ rfl
      have hlv : 0 ≤ lv := rmean_nonneg (lossSeries_nonneg c) _ hl _ rfl
      by_cases hl0 : lv = 0
      · rw [if_pos hl0] at heq
        by_cases hg0 : gv = 0
        · rw [if_pos hg0] at heq
          simp at heq
        · rw [if_neg hg0] at heq
          have hx2 : x = 100 := Option.some.inj heq
          rw [hx2]
          norm_num
      · rw [if_neg hl0] at heq
        have hx2 : x = 100 - 100 / (1 + gv / lv) := Option.some.inj heq
        have hlp : 0 < lv := lt_of_le_of_ne hlv (Ne.symm hl0)
        have hratio : 0 ≤ gv / lv := div_nonneg hgv hlv
        have h1 : 0 < 100 / (1 + gv / lv) := by positivity
        have h2 : 100 / (1 + gv / lv) ≤ 100 := by
          apply div_le_self (by norm_num) (by linarith)
        constructor <;> rw [hx2] <;> linarith

/-- Characterization of a defined rolling minimum: the window extracts to
a NaN-free list whose minimum it is. -/
theorem rminO_char {w : ℕ} {xs : List (Option ℚ)} {i : ℕ} {lo : ℚ}
    (h : (rminO w xs)[i]? = some (some lo)) :
    ∃ m, seqO (((xs.take (i + 1)).reverse).take w) = some m ∧ m.min? = some lo := by
  have hi : i < xs.length := by
    by_contra hni
    push_neg at hni
    have hlen : (rminO w xs).length ≤ i := by
      unfold rminO
      rw [rollMap_length]
      exact hni
    rw [List.getElem?_eq_none hlen] at h
    cases h
  unfold rminO at h
  rw [rollMap_getElem? [] hi, List.append_nil] at h
  have h2 := Option.some.inj h
  by_cases hw : w ≤ ((xs.take (i + 1)).reverse).length
  · rw [if_pos hw] at h2
    obtain ⟨m, hm1, hm2⟩ := Option.bind_eq_some.mp h2
    exact ⟨m, hm1, hm2⟩
  · rw [if_neg hw] at h2
    cases h2

/-- Characterization of a defined rolling maximum. -/
theorem rmaxO_char {w : ℕ} {xs : List (Option ℚ)} {i : ℕ} {hi2 : ℚ}
    (h : (rmaxO w xs)[i]? = some (some hi2)) :
    ∃ m, seqO (((xs.take (i + 1)).reverse).take w) = some m ∧ m.max? = some hi2 := by
  have hi : i < xs.length := by
    by_contra hni
    push_neg at hni
    have hlen : (rmaxO w xs).length ≤ i := by
      unfold rmaxO
      rw [rollMap_length]
      exact hni
    rw [List.getElem?_eq_none hlen] at h
    cases h
  unfold rmaxO at h
  rw [rollMap_getElem? [] hi, List.append_nil] at h
  have h2 := Option.some.inj h
  by_cases hw : w ≤ ((xs.take (i + 1)).reverse).length
  · rw [if_pos hw] at h2
    obtain ⟨m, hm1, hm2⟩ := Option.bind_eq_some.mp h2
    exact ⟨m, hm1, hm2⟩
  · rw [if_neg hw] at h2
    cases h2

/-- The element at position `i` belongs to every nonempty window ending at
position `i`. -/
theorem head_window_mem {l : List α} {i : ℕ} {a : α} (h : l[i]? = some a)
    {w : ℕ} (hw : w ≠ 0) : a ∈ ((l.take (i + 1)).reverse).take w := by
  rw [List.take_succ, h]
  rw [List.reverse_append]
  cases w with
  | zero => exact absurd rfl hw
  | succ w =>
    simp only [Option.toList_some, List.reverse_cons, List.reverse_nil,
      List.nil_append, List.singleton_append, List.take_succ_cons]
    exact List.mem_cons_self _ _

/-- Every defined raw stochastic-RSI value lies in `[0, 100]`: the RSI
value at the position belongs to the min/max window of the same
position. -/
theorem stochSeries_bounds (c : List ℚ) :
    ∀ o ∈ stochSeries c, ∀ x, o = some x → 0 ≤ x ∧ x ≤ 100 := by
  intro o ho x hx
  rw [hx] at ho
  obtain ⟨i, hi⟩ := List.mem_iff_getElem?.mp ho
  unfold stochSeries zipO3 at hi
  obtain ⟨a, bc, ha, hbc, heq⟩ := zipWith_getElem?_some hi
  obtain ⟨bo, co, hb, hc, hbc2⟩ := zipWith_getElem?_some hbc
  subst hbc2
  cases a with
  | none => simp at heq
  | some r =>
    cases bo with
    | none => simp at heq
    | some lo =>
      cases co with
      | none => simp at heq
      | some hi2 =>
        dsimp only at heq
        by_cases hzero : hi2 - lo = 0
        · rw [if_pos hzero] at heq
          cases heq
        · rw [if_neg hzero] at heq
          have hx2 : x = (r - lo) / (hi2 - lo) * 100 := Option.some.inj heq
          obtain ⟨m, hm, hmin⟩ := rminO_char hb
          obtain ⟨m2, hm2, hmax⟩ := rmaxO_char hc
          have hmm : m2 = m := by
            rw [hm] at hm2
            exact Option.some.inj hm2.symm
          subst hmm
          have hrm : r ∈ m2 := seqO_mem_to hm (head_window_mem ha (by norm_num))
          have h1 : lo ≤ r := minQ_le_of_mem hmin hrm
          have h2 : r ≤ hi2 := maxQ_ge_of_mem hmax hrm
          have hlt : lo < hi2 := by
            rcases lt_or_eq_of_le (le_trans h1 h2) with h3 | h3
            · exact h3
            · exact absurd (by rw [h3]; ring) hzero
          have hd : 0 < hi2 - lo := by linarith
          constructor
          · rw [hx2]
            have := div_nonneg (show (0:ℚ) ≤ r - lo by linarith) hd.le
            linarith
          · rw [hx2]
            have hq : (r - lo) / (hi2 - lo) ≤ 1 := (div_le_one hd).mpr (by linarith)
            have := mul_le_mul_of_nonneg_right hq (show (0:ℚ) ≤ 100 by norm_num)
            linarith

/-- Every defined smoothed %K value lies in `[0, 100]`. -/
theorem kSeries_bounds (c : List ℚ) :
    ∀ o ∈ kSeries c, ∀ x, o = some x → 0 ≤ x ∧ x ≤ 100 := by
  unfold kSeries
  exact rmeanO_bounds (by norm_num) (stochSeries_bounds c)

/-- Every defined smoothed %D value lies in `[0, 100]`. -/
theorem dSeries_bounds (c : List ℚ) :
    ∀ o ∈ dSeries c, ∀ x, o = some x → 0 ≤ x ∧ x ≤ 100 := by
  unfold dSeries
  exact rmeanO_bounds (by norm_num) (kSeries_bounds c)

/-- Every defined `+DI` value is nonnegative (well-formed bars give a
nonnegative true range, and a defined `+DI` divides by a nonzero ATR). -/
theorem pdiSeries_nonneg {bars : List Bar} (hwf : ∀ b ∈ bars, b.low ≤ b.high) :
    ∀ o ∈ pdiSeries bars, ∀ v, o = some v → 0 ≤ v := by
  intro o ho v hv
  rw [hv] at ho
  unfold pdiSeries zipO2 at ho
  obtain ⟨p, a, hp, ha, heq⟩ := zipWith_mem_decomp ho
  cases p with
  | none => simp at heq
  | some pv =>
    cases a with
    | none => simp at heq
    | some av =>
      dsimp only at heq
      by_cases ha0 : av = 0
      · rw [if_pos ha0] at heq
        cases heq
      · rw [if_neg ha0] at heq
        have hv2 : v = 100 * (pv / av) := Option.some.inj heq
        have hpv : 0 ≤ pv := rmean_nonneg (posDmSeries_nonneg bars) _ hp _ rfl
        have hav : 0 ≤ av := by
          have := rmean_nonneg (trSeries_nonneg hwf) (w := 14)
          unfold atrSeries at ha
          exact this _ ha _ rfl
        have havp : 0 < av := lt_of_le_of_ne hav (Ne.symm ha0)
        rw [hv2]
        positivity

/-- Every defined `−DI` value is nonnegative. -/
theorem ndiSeries_nonneg {bars : List Bar} (hwf : ∀ b ∈ bars, b.low ≤ b.high) :
    ∀ o ∈ ndiSeries bars, ∀ v, o = some v → 0 ≤ v := by
  intro o ho v hv
  rw [hv] at ho
  unfold ndiSeries zipO2 at ho
  obtain ⟨p, a, hp, ha, heq⟩ := zipWith_mem_decomp ho
  cases p with
  | none => simp at heq
  | some pv =>
    cases a with
    | none => simp at heq
    | some av =>
      dsimp only at heq
      by_cases ha0 : av = 0
      · rw [if_pos ha0] at heq
        cases heq
      · rw [if_neg ha0] at heq
        have hv2 : v = 100 * (pv / av) := Option.some.inj heq
        have hpv : 0 ≤ pv := rmean_nonneg (negDmSeries_nonneg bars) _ hp _ rfl
        have hav : 0 ≤ av := by
          have := rmean_nonneg (trSeries_nonneg hwf) (w := 14)
          unfold atrSeries at ha
          exact this _ ha _ rfl
        have havp : 0 < av := lt_of_le_of_ne hav (Ne.symm ha0)
        rw [hv2]
        positivity

/-- Every defined `DX` value lies in `[0, 100]`. -/
theorem dxSeries_bounds {bars : List Bar} (hwf : ∀ b ∈ bars, b.low ≤ b.high) :
    ∀ o ∈ dxSeries bars, ∀ x, o = some x → 0 ≤ x ∧ x ≤ 100 := by
  intro o ho x hx
  rw [hx] at ho
  unfold dxSeries zipO2 at ho
  obtain ⟨p, n, hp, hn, heq⟩ := zipWith_mem_decomp ho
  cases p with
  | none => simp at heq
  | some pv =>
    cases n with
    | none => simp at heq
    | some nv =>
      dsimp only at heq
      by_cases h0 : pv + nv = 0
      · rw [if_pos h0] at heq
        cases heq
      · rw [if_neg h0] at heq
        have hx2 : x = 100 * |pv - nv| / (pv + nv) := Option.some.inj heq
        have hpv : 0 ≤ pv := pdiSeries_nonneg hwf _ hp _ rfl
        have hnv : 0 ≤ nv := ndiSeries_nonneg hwf _ hn _ rfl
        have hpos : 0 < pv + nv := lt_of_le_of_ne (by linarith) (Ne.symm h0)
        constructor
        · rw [hx2]
          positivity
        · rw [hx2]
          rw [div_le_iff hpos]
          have habs : |pv - nv| ≤ pv + nv :=
            abs_le.mpr ⟨by linarith, by linarith⟩
          nlinarith

/-- Every defined ADX value lies in `[0, 100]`. -/
theorem adxSeries_bounds {bars : List Bar} (hwf : ∀ b ∈ bars, b.low ≤ b.high) :
    ∀ o ∈ adxSeries bars, ∀ x, o = some x → 0 ≤ x ∧ x ≤ 100 := by
  unfold adxSeries
  exact rmeanO_bounds (by norm_num) (dxSeries_bounds hwf)

theorem lowChannel_ge (bars : List Bar) :
    ∀ x ∈ lowChannelSeries bars, 1/100 ≤ x := by
  intro x hx
  unfold lowChannelSeries at hx
  obtain ⟨o, _, rfl⟩ := List.mem_map.mp hx
  cases o with
  | none => simp [validate_price_nan]
  | some q => simp [validate_price_nan, le_max_left]

theorem lowChannel_length (bars : List Bar) :
    (lowChannelSeries bars).length = bars.length := by
  unfold lowChannelSeries rminO
  rw [List.length_map, rollMap_length, List.length_map, List.length_map]

/-- C3 amended: for every series of well-formed bars (low ≤ high) with at
least 20 bars, whenever the snapshot values are defined (not NaN) they
satisfy: RSI ∈ [0,100], Stoch-RSI K and D ∈ [0,100], ADX ≥ 0, ATR ≥ 0
(zero, not strictly positive, for zero-movement series), and the Donchian
lower bound is always defined and ≥ 0.01.  With only 20 bars K, D and ADX
are in fact always NaN (their rolling chains need more history), and on a
constant-price series RSI is NaN and ATR is exactly 0, which is why the
claim's strict ATR > 0 and unconditional ranges cannot hold. -/
theorem C3_amended (bars : List Bar) (hwf : ∀ b ∈ bars, b.low ≤ b.high)
    (hlen : 20 ≤ bars.length) :
    (∀ x, lastRSI (bars.map Bar.close) = some x → 0 ≤ x ∧ x ≤ 100) ∧
    (∀ x, lastK (bars.map Bar.close) = some x → 0 ≤ x ∧ x ≤ 100) ∧
    (∀ x, lastD (bars.map Bar.close) = some x → 0 ≤ x ∧ x ≤ 100) ∧
    (∀ x, lastADX bars = some x → 0 ≤ x) ∧
    (∀ x, lastATR bars = some x → 0 ≤ x) ∧
    (∃ v, donchianLowerLast bars = some v ∧ 1/100 ≤ v) := by
  refine ⟨?_, ?_, ?_, ?_, ?_, ?_⟩
  · intro x hx
    unfold lastRSI at hx
    exact rsiSeries_bounds _ _ (lastO_mem hx) x rfl
  · intro x hx
    unfold lastK at hx
    exact kSeries_bounds _ _ (lastO_mem hx) x rfl
  · intro x hx
    unfold lastD at hx
    exact dSeries_bounds _ _ (lastO_mem hx) x rfl
  · intro x hx
    unfold lastADX at hx
    exact (adxSeries_bounds hwf _ (lastO_mem hx) x rfl).1
  · intro x hx
    unfold lastATR at hx
    have hmem := lastO_mem hx
    unfold atrSeries at hmem
    exact rmean_nonneg (trSeries_nonneg hwf) _ hmem x rfl
  · have hne : lowChannelSeries bars ≠ [] := by
      intro he
      have hl := lowChannel_length bars
      rw [he] at hl
      simp only [List.length_nil] at hl
      omega
    obtain ⟨v, hv⟩ : ∃ v, (lowChannelSeries bars).getLast? = some v := by
      cases hg : (lowChannelSeries bars).getLast? with
      | none => exact absurd (List.getLast?_eq_none_iff.mp hg) hne
      | some v => exact ⟨v, rfl⟩
    refine ⟨pyRound2 v, ?_, pyRound2_ge_min (lowChannel_ge bars v (mem_of_getLastQ hv))⟩
    unfold donchianLowerLast
    rw [hv]
    rfl

/-- C3 counterexample: twenty well-formed bars of constant price 100 — the
snapshot's ATR is exactly 0, not strictly positive, and RSI, Stoch-RSI %K
and ADX are NaN on this series (so none of the claimed range facts can
even be stated of them), refuting "ATR > 0 ... including series with zero
price movement" for the 20-bar well-formed series `flat20`. -/
theorem C3_counterexample :
    flat20.length = 20 ∧
    lastATR flat20 = some 0 ∧
    lastRSI (flat20.map Bar.close) = none ∧
    lastK (flat20.map Bar.close) = none ∧
    lastADX flat20 = none := by
  refine ⟨by norm_num [flat20], ?_, ?_, ?_, ?_⟩
  · norm_num [lastATR, lastO, atrSeries, rmean, rollMap, trSeries, seqO,
      flat20, flatBar]
  · norm_num [lastRSI, lastO, rsiSeries, zipO2, rmean, rollMap, seqO,
      gainSeries, lossSeries, deltaSeries, flat20, flatBar]
  · norm_num [lastK, lastO, kSeries, stochSeries, zipO3, zipO2, rmeanO, rminO,
      rmaxO, rmean, rollMap, seqO, rsiSeries, gainSeries, lossSeries,
      deltaSeries, flat20, flatBar]
  · norm_num [lastADX, lastO, adxSeries, dxSeries, pdiSeries, ndiSeries,
      zipO2, rmeanO, rmean, rollMap, seqO, atrSeries, trSeries, posDmSeries,
      negDmSeries, flat20, flatBar]

/-- C3 witness: the amended theorem applied to the flat 20-bar series. -/
theorem C3_witness :
    (∀ x, lastRSI ((List.replicate 20 flatBar).map Bar.close) = some x →
      0 ≤ x ∧ x ≤ 100) ∧
    (∀ x, lastK ((List.replicate 20 flatBar).map Bar.close) = some x →
      0 ≤ x ∧ x ≤ 100) ∧
    (∀ x, lastD ((List.replicate 20 flatBar).map Bar.close) = some x →
      0 ≤ x ∧ x ≤ 100) ∧
    (∀ x, lastADX (List.replicate 20 flatBar) = some x → 0 ≤ x) ∧
    (∀ x, lastATR (List.replicate 20 flatBar) = some x → 0 ≤ x) ∧
    (∃ v, donchianLowerLast (List.replicate 20 flatBar) = some v ∧ 1/100 ≤ v) :=
  C3_amended (List.replicate 20 flatBar)
    (fun b hb => by rw [List.eq_of_mem_replicate hb]; norm_num [flatBar])
    (by simp)

end Trade5
